import Mathlib

/-!
Verification of the Go chat-agent repository (`main.go` plus the earlier
variant of the same program preserved alongside it).

The development is a shallow embedding:

* The dispatch loop (`Agent.Run`, `Agent.executeTool`) is modelled as a pure
  recursive function over the conversation.  The completion client is opaque
  in the program, so it is modelled as an oracle: a finite list of responses,
  each either an assistant message or an error; each loop iteration consumes
  exactly one oracle entry (one `runInference` call).  The run is truncated
  when the oracle is exhausted.  User input is a finite list of lines; an
  exhausted list models `scanner.Scan()` returning false (the loop breaks).
* Tool handlers in the dispatch model are opaque functions from raw argument
  text to a result-or-error, matching the uniform Go handler contract
  `func(input json.RawMessage) (string, error)`.
* The individual filesystem tool handlers are modelled separately over an
  explicit filesystem state, with `json.Unmarshal` abstracted as its outcome
  (either a decoded parameter record or a decode error).
-/

/-! ## Dispatch-loop data model (from `main.go` / the earlier variant) -/

/-- Message roles used by the program: `openai.ChatMessageRoleUser`,
`...Assistant`, `...Tool`. -/
inductive Role where
  | user
  | assistant
  | tool
deriving DecidableEq

/-- A tool call requested by the model.  Flattens the Go
`toolCall.ID / toolCall.Function.Name / toolCall.Function.Arguments` fields. -/
structure ToolCall where
  id : String
  name : String
  args : String
deriving DecidableEq

/-- `openai.ChatCompletionMessage`, restricted to the fields the program
reads or writes: `Role`, `Content`, `ToolCalls`, `ToolCallID`. -/
structure ChatMessage where
  role : Role
  content : String
  toolCalls : List ToolCall
  toolCallID : String
deriving DecidableEq

/-- `ToolDefinition` as the dispatch loop sees it: a name and the handler
function.  (`Description` and `InputSchema` are only forwarded to the
completion client and do not affect dispatch.)  The handler is opaque:
raw argument text to result-or-error. -/
structure ToolDef where
  name : String
  fn : String → Except String String

/-- The user message built in `Agent.Run` from one input line. -/
def userMsg (u : String) : ChatMessage :=
  { role := Role.user, content := u, toolCalls := [], toolCallID := "" }

/-- The tool-result message built in `Agent.Run` for one tool call. -/
def toolMsg (id content : String) : ChatMessage :=
  { role := Role.tool, content := content, toolCalls := [], toolCallID := id }

/-- `Agent.executeTool`: scan the ordered tool list for the first
definition whose name equals the requested name (the Go `for` loop with
`break`); if none matches return `"tool not found"`, otherwise run the
handler and return its result string, or the error's message on failure. -/
def executeTool (tools : List ToolDef) (id name : String) (input : String) : String :=
  match tools.find? (fun t => t.name == name) with
  | none => "tool not found"
  | some t =>
    match t.fn input with
    | Except.ok r => r
    | Except.error e => e

/-- The tool-result messages appended by `Agent.Run` for one assistant
turn: one message per requested call, in request order, each carrying the
request's `ID` as `ToolCallID`. -/
def toolResultsFor (tools : List ToolDef) (tcs : List ToolCall) : List ChatMessage :=
  tcs.map (fun tc => toolMsg tc.id (executeTool tools tc.id tc.name tc.args))

/-- Processing of one successfully-or-unsuccessfully completed inference
call in `main.go`'s `Agent.Run`, given the conversation at the moment of
the call: returns the new conversation and the new `readUserInput` flag.
On error the conversation is unchanged and control returns to user input;
on an assistant turn with tool calls the turn and its tool results are
appended and `readUserInput` becomes false; on a plain-text turn only the
turn is appended and `readUserInput` becomes true. -/
def stepResp (tools : List ToolDef) (r : Except String ChatMessage)
    (conv : List ChatMessage) : List ChatMessage × Bool :=
  match r with
  | Except.error _ => (conv, true)
  | Except.ok am =>
    if am.toolCalls.isEmpty then (conv ++ [am], true)
    else (conv ++ [am] ++ toolResultsFor tools am.toolCalls, false)

/-- Observable control-flow events of a run: reading one line of user
input, and invoking the completion client (recording its response). -/
inductive Ev where
  | input (u : String)
  | call (r : Except String ChatMessage)

/-- `Agent.Run` of `main.go`: the loop alternates reading user input
(when `readUserInput` is set), calling the completion client, and
dispatching tool calls.  A completion failure is printed and control
returns to user input with the conversation preserved.  Returns the final
conversation and the event trace.  The oracle list is the sequence of
completion-client responses; the run is truncated when it is exhausted,
and ends when user input is exhausted. -/
def runV1 (tools : List ToolDef) :
    List String → List (Except String ChatMessage) → Bool → List ChatMessage →
    List ChatMessage × List Ev
  | _, [], _, conv => (conv, [])
  | inputs, r :: rest, false, conv =>
    let s := stepResp tools r conv
    let res := runV1 tools inputs rest s.2 s.1
    (res.1, Ev.call r :: res.2)
  | inputs, r :: rest, true, conv =>
    match inputs with
    | [] => (conv, [])
    | u :: us =>
      let s := stepResp tools r (conv ++ [userMsg u])
      let res := runV1 tools us rest s.2 s.1
      (res.1, Ev.input u :: Ev.call r :: res.2)

/-- `Agent.Run` of the earlier variant of the program: identical except
that a completion failure makes `Run` return that error (the loop
terminates).  `Except.error e` is the run ending with `return err`;
`Except.ok conv` is a run ending by input exhaustion (or oracle
truncation). -/
def runV2 (tools : List ToolDef) :
    List String → List (Except String ChatMessage) → Bool → List ChatMessage →
    Except String (List ChatMessage) × List Ev
  | _, [], _, conv => (Except.ok conv, [])
  | inputs, r :: rest, false, conv =>
    match r with
    | Except.error e => (Except.error e, [Ev.call (Except.error e)])
    | Except.ok _ =>
      let s := stepResp tools r conv
      let res := runV2 tools inputs rest s.2 s.1
      (res.1, Ev.call r :: res.2)
  | inputs, r :: rest, true, conv =>
    match inputs with
    | [] => (Except.ok conv, [])
    | u :: us =>
      match r with
      | Except.error e => (Except.error e, [Ev.input u, Ev.call (Except.error e)])
      | Except.ok _ =>
        let s := stepResp tools r (conv ++ [userMsg u])
        let res := runV2 tools us rest s.2 s.1
        (res.1, Ev.input u :: Ev.call r :: res.2)

/-! ### Specification predicates over conversations and traces -/

/-- Block structure of the conversation maintained by the dispatch loop:
it is a concatenation of user turns, plain-text assistant turns, and
assistant turns with tool calls each immediately followed by exactly its
tool-result messages. -/
inductive ConvBlocks (tools : List ToolDef) : List ChatMessage → Prop where
  | nil : ConvBlocks tools []
  | user (conv : List ChatMessage) (u : String) :
      ConvBlocks tools conv → ConvBlocks tools (conv ++ [userMsg u])
  | text (conv : List ChatMessage) (am : ChatMessage) :
      am.toolCalls.isEmpty = true →
      ConvBlocks tools conv → ConvBlocks tools (conv ++ [am])
  | withTools (conv : List ChatMessage) (am : ChatMessage) :
      am.toolCalls.isEmpty = false →
      ConvBlocks tools conv →
      ConvBlocks tools (conv ++ [am] ++ toolResultsFor tools am.toolCalls)

/-- A response that produced a plain-text assistant turn. -/
def respGivesText : Except String ChatMessage → Bool
  | Except.ok am => am.toolCalls.isEmpty
  | Except.error _ => false

/-- A response after which the loop returns to user input: a plain-text
assistant turn, or (in `main.go`) a failed completion call. -/
def respEndsRound : Except String ChatMessage → Bool
  | Except.ok am => am.toolCalls.isEmpty
  | Except.error _ => true

/-- Whether an event is a completion-client invocation. -/
def isCall : Ev → Bool
  | Ev.call _ => true
  | _ => false

/-- Whether an event is a user-input read. -/
def isInput : Ev → Bool
  | Ev.input _ => true
  | _ => false

/-- Every adjacent pair of events satisfies `p`. -/
def adjOK (p : Ev → Ev → Bool) : List Ev → Bool
  | a :: b :: rest => p a b && adjOK p (b :: rest)
  | _ => true

/-- The first event (if any) satisfies `q`. -/
def headSat (q : Ev → Bool) : List Ev → Bool
  | [] => true
  | e :: _ => q e

/-- Adjacency predicate: when the first event is a completion call whose
assistant turn carries tool calls, the second is again a completion
call. -/
def toolPair : Ev → Ev → Bool
  | Ev.call (Except.ok am), b => am.toolCalls.isEmpty || isCall b
  | _, _ => true

/-- Adjacency predicate of the claim as stated: a user-input read is
preceded by a completion call that produced an assistant turn with no
tool calls. -/
def textPair : Ev → Ev → Bool
  | Ev.call r, Ev.input _ => respGivesText r
  | _, Ev.input _ => false
  | _, _ => true

/-- Adjacency predicate of the amended claim: a user-input read is
preceded by a completion call that produced a plain-text assistant turn
or failed. -/
def roundPair : Ev → Ev → Bool
  | Ev.call r, Ev.input _ => respEndsRound r
  | _, Ev.input _ => false
  | _, _ => true

/-- After an assistant turn carrying tool calls, the next event (if any)
is another completion call — no user input is solicited in between. -/
def toolsThenCall (tr : List Ev) : Bool :=
  adjOK toolPair tr

/-- The claim as stated: user input is read only immediately after a
completion call that produced an assistant turn with no tool calls. -/
def inputOnlyAfterText (tr : List Ev) : Bool :=
  adjOK textPair tr

/-- The amended property: user input is read only immediately after a
completion call that produced a plain-text assistant turn or failed. -/
def inputOnlyAfterRoundEnd (tr : List Ev) : Bool :=
  adjOK roundPair tr

/-! ## Go string replacement (`strings.Replace(s, old, new, -1)`)

Modelled at the rune (character) level, over `List Char`. -/

/-- `strings.Replace` with an empty pattern: the replacement is inserted
before every character and after the last one. -/
def replaceEmptyPat (new : List Char) : List Char → List Char
  | [] => new
  | c :: rest => new ++ c :: replaceEmptyPat new rest

/-- `strings.Replace` with a non-empty pattern: leftmost non-overlapping
matches are replaced.  At each position: if the pattern is a prefix of the
remaining input, emit the replacement and skip the matched characters,
otherwise keep the character.  (Only used with `old ≠ []`.) -/
def goReplaceNE (old new : List Char) : List Char → List Char
  | [] => []
  | c :: rest =>
    if old.isPrefixOf (c :: rest) then
      new ++ goReplaceNE old new (rest.drop (old.length - 1))
    else
      c :: goReplaceNE old new rest
termination_by l => l.length
decreasing_by
  · simp only [List.length_drop, List.length_cons]
    omega
  · simp

/-- Number of matches replaced by `goReplaceNE`, following the same
recursion. -/
def replCount (old : List Char) : List Char → Nat
  | [] => 0
  | c :: rest =>
    if old.isPrefixOf (c :: rest) then
      replCount old (rest.drop (old.length - 1)) + 1
    else
      replCount old rest
termination_by l => l.length
decreasing_by
  · simp only [List.length_drop, List.length_cons]
    omega
  · simp

/-- Whether `old` occurs as a contiguous substring of `l` (at any
position; the empty pattern occurs everywhere). -/
def occursL (old : List Char) : List Char → Bool
  | [] => old.isEmpty
  | c :: rest => old.isPrefixOf (c :: rest) || occursL old rest

/-- `strings.Replace(s, old, new, -1)` on strings. -/
def goReplace (s old new : String) : String :=
  if old.data = [] then String.mk (replaceEmptyPat new.data s.data)
  else String.mk (goReplaceNE old.data new.data s.data)

/-- `old` occurs as a substring of `s`. -/
def occursIn (old s : String) : Bool :=
  occursL old.data s.data

/-! ## Go path handling (`path.Clean`, `path.Dir`) -/

/-- `strings.Split` on `'/'`, at the character level. -/
def splitSlash : List Char → List (List Char)
  | [] => [[]]
  | c :: rest =>
    if c = '/' then [] :: splitSlash rest
    else
      match splitSlash rest with
      | [] => [[c]]
      | h :: t => (c :: h) :: t

/-- The element-processing core of `path.Clean`: empty and `"."` elements
are dropped, `".."` pops a previous element (or is kept when there is
nothing to pop and the path is not rooted, or dropped at the root of a
rooted path), and ordinary elements are pushed.  `acc` is the reversed
stack of kept elements. -/
def cleanElems (rooted : Bool) : List String → List String → List String
  | acc, [] => acc.reverse
  | acc, e :: es =>
    if e = "" || e = "." then cleanElems rooted acc es
    else if e = ".." then
      match acc with
      | a :: as => if a = ".." then cleanElems rooted (e :: a :: as) es
                   else cleanElems rooted as es
      | [] => if rooted then cleanElems rooted [] es
              else cleanElems rooted [e] es
    else cleanElems rooted (e :: acc) es

/-- Go `path.Clean`. -/
def goClean (p : String) : String :=
  if p = "" then "."
  else
    let rooted := p.data.head? = some '/'
    let elems := (splitSlash p.data).map String.mk
    let stack := cleanElems rooted [] elems
    let out := String.intercalate "/" stack
    if rooted then (if out = "" then "/" else "/" ++ out)
    else (if out = "" then "." else out)

/-- The portion of a path up to and including its last `'/'` (empty when
there is no slash): Go `path.Split`'s directory part. -/
def dirPart (l : List Char) : List Char :=
  (l.reverse.dropWhile (fun c => c ≠ '/')).reverse

/-- Go `path.Dir`: the directory part of the path, cleaned.  Returns
`"."` for slash-free paths. -/
def goDir (p : String) : String :=
  goClean (String.mk (dirPart p.data))

/-! ## Filesystem state for the tool handlers

The working directory's files are a path-to-content association list and
the set of directories explicitly created is tracked by path.  I/O
failures other than absence (permissions, full disk) are not modelled:
reads fail exactly on absent paths, writes and directory creation
succeed.  `MkdirAll` is modelled as recording the requested directory
(intermediate ancestors are not separately tracked). -/

structure FS where
  files : List (String × String)
  dirs : List String
deriving DecidableEq

/-- `os.ReadFile`: the content when the path exists. -/
def FS.readFile (fs : FS) (p : String) : Option String :=
  fs.files.lookup p

/-- `os.WriteFile`: create or overwrite. -/
def FS.writeFile (fs : FS) (p c : String) : FS :=
  { fs with files := (p, c) :: fs.files.filter (fun e => e.1 ≠ p) }

/-- `os.MkdirAll`. -/
def FS.mkdirAll (fs : FS) (d : String) : FS :=
  { fs with dirs := if fs.dirs.contains d then fs.dirs else d :: fs.dirs }

/-- `os.Stat` success: the path names an existing file or directory. -/
def FS.stat (fs : FS) (p : String) : Bool :=
  fs.files.any (fun e => e.1 == p) || fs.dirs.contains p

/-- Outcome of a handler invocation: a result string, an error returned
as a value, or a `panic` aborting the process. -/
inductive ToolOutcome where
  | ok (s : String)
  | err (s : String)
  | panic (s : String)
deriving DecidableEq

/-- Whether the outcome aborts the process. -/
def ToolOutcome.aborts : ToolOutcome → Bool
  | ToolOutcome.panic _ => true
  | _ => false

/-- Whether the outcome is an error returned as a value. -/
def ToolOutcome.isErr : ToolOutcome → Bool
  | ToolOutcome.err _ => true
  | _ => false

/-- The `os.ReadFile` not-found error message. -/
def notExistMsg (p : String) : String :=
  "open " ++ p ++ ": no such file or directory"

/-! ## Tool handler parameter records

Each mirrors the Go input struct of the same name.  A handler receives
the outcome of `json.Unmarshal` on the raw arguments: either the decoded
record or a decode error. -/

structure ReadFileInput where
  Path : String
deriving DecidableEq

structure ListFilesInput where
  Path : String
deriving DecidableEq

structure EditFileInput where
  Path : String
  OldStr : String
  NewStr : String
deriving DecidableEq

structure CreateFileInput where
  Path : String
  Content : String
deriving DecidableEq

structure DeleteFileInput where
  Path : String
deriving DecidableEq

structure RenameFileInput where
  OldPath : String
  NewPath : String
deriving DecidableEq

structure CreateFolderInput where
  Path : String
deriving DecidableEq

structure DeleteFolderInput where
  Path : String
deriving DecidableEq

structure RenameFolderInput where
  OldPath : String
  NewPath : String
deriving DecidableEq

structure TerminalRunInput where
  Command : String
  Timeout : Int
deriving DecidableEq

/-! ## The tool handlers (from `main.go`; identical in the earlier variant) -/

/-- `ReadFile`: note that a decode failure `panic`s (aborting the
process) rather than returning an error. -/
def ReadFile (input : Except String ReadFileInput) (fs : FS) : ToolOutcome :=
  match input with
  | Except.error e => ToolOutcome.panic e
  | Except.ok inp =>
    match fs.readFile inp.Path with
    | none => ToolOutcome.err (notExistMsg inp.Path)
    | some c => ToolOutcome.ok c

/-- `createNewFile`: make the parent directory (unless it is `"."`) and
write the file. -/
def createNewFile (filePath content : String) (fs : FS) : FS × ToolOutcome :=
  let dir := goDir filePath
  let fs1 := if dir ≠ "." then fs.mkdirAll dir else fs
  (fs1.writeFile filePath content,
   ToolOutcome.ok ("Successfully created file " ++ filePath))

/-- `EditFile`: replace all occurrences of `OldStr` by `NewStr`; create
the file (with parent directories) when it is absent and `OldStr` is
empty; error when `OldStr` is non-empty and produces no change, or when
the parameters are invalid. -/
def EditFile (input : Except String EditFileInput) (fs : FS) : FS × ToolOutcome :=
  match input with
  | Except.error e => (fs, ToolOutcome.err e)
  | Except.ok inp =>
    if inp.Path = "" || inp.OldStr = inp.NewStr then
      (fs, ToolOutcome.err "invalid input parameters")
    else
      match fs.readFile inp.Path with
      | none =>
        if inp.OldStr = "" then createNewFile inp.Path inp.NewStr fs
        else (fs, ToolOutcome.err (notExistMsg inp.Path))
      | some content =>
        let newContent := goReplace content inp.OldStr inp.NewStr
        if content = newContent && inp.OldStr ≠ "" then
          (fs, ToolOutcome.err "old_str not found in file")
        else
          (fs.writeFile inp.Path newContent, ToolOutcome.ok "OK")

/-- `CreateFile`: overwrite-create with parent directory creation. -/
def CreateFile (input : Except String CreateFileInput) (fs : FS) : FS × ToolOutcome :=
  match input with
  | Except.error e => (fs, ToolOutcome.err e)
  | Except.ok inp =>
    if inp.Path = "" then (fs, ToolOutcome.err "path cannot be empty")
    else
      let dir := goDir inp.Path
      let fs1 := if dir ≠ "." then fs.mkdirAll dir else fs
      (fs1.writeFile inp.Path inp.Content,
       ToolOutcome.ok ("Successfully created file " ++ inp.Path))

/-- `DeleteFile`: error when the path does not exist, otherwise remove
it.  (`os.Remove`'s failure on non-empty directories is not modelled.) -/
def DeleteFile (input : Except String DeleteFileInput) (fs : FS) : FS × ToolOutcome :=
  match input with
  | Except.error e => (fs, ToolOutcome.err e)
  | Except.ok inp =>
    if inp.Path = "" then (fs, ToolOutcome.err "path cannot be empty")
    else if fs.stat inp.Path = false then
      (fs, ToolOutcome.err ("file does not exist: " ++ inp.Path))
    else
      ({ files := fs.files.filter (fun e => e.1 ≠ inp.Path),
         dirs := fs.dirs.filter (fun d => d ≠ inp.Path) },
       ToolOutcome.ok ("Successfully deleted file " ++ inp.Path))

/-- `os.Rename` on the modelled state: move a file entry, or re-key a
directory entry.  (Children of a renamed directory are not re-keyed in
this flat model; no claim depends on them.) -/
def FS.rename (fs : FS) (oldP newP : String) : FS :=
  match fs.files.lookup oldP with
  | some c =>
    { fs with files := (newP, c) :: (fs.files.filter (fun e => e.1 ≠ oldP)) }
  | none =>
    { fs with dirs := newP :: fs.dirs.filter (fun d => d ≠ oldP) }

/-- `RenameFile`: validate, require the source to exist, create the
destination's parent directory, rename. -/
def RenameFile (input : Except String RenameFileInput) (fs : FS) : FS × ToolOutcome :=
  match input with
  | Except.error e => (fs, ToolOutcome.err e)
  | Except.ok inp =>
    if inp.OldPath = "" || inp.NewPath = "" then
      (fs, ToolOutcome.err "both old_path and new_path must be provided")
    else if fs.stat inp.OldPath = false then
      (fs, ToolOutcome.err ("source file does not exist: " ++ inp.OldPath))
    else
      let dir := goDir inp.NewPath
      let fs1 := if dir ≠ "." then fs.mkdirAll dir else fs
      (fs1.rename inp.OldPath inp.NewPath,
       ToolOutcome.ok ("Successfully renamed " ++ inp.OldPath ++ " to " ++ inp.NewPath))

/-- `CreateFolder`. -/
def CreateFolder (input : Except String CreateFolderInput) (fs : FS) : FS × ToolOutcome :=
  match input with
  | Except.error e => (fs, ToolOutcome.err e)
  | Except.ok inp =>
    if inp.Path = "" then (fs, ToolOutcome.err "path cannot be empty")
    else
      (fs.mkdirAll inp.Path,
       ToolOutcome.ok ("Successfully created directory " ++ inp.Path))

/-- Whether `q` lies strictly under directory `p`. -/
def underDir (p q : String) : Bool :=
  (p ++ "/").data.isPrefixOf q.data

/-- `DeleteFolder`: error when the path does not exist, otherwise
`os.RemoveAll` (the path and everything under it). -/
def DeleteFolder (input : Except String DeleteFolderInput) (fs : FS) : FS × ToolOutcome :=
  match input with
  | Except.error e => (fs, ToolOutcome.err e)
  | Except.ok inp =>
    if inp.Path = "" then (fs, ToolOutcome.err "path cannot be empty")
    else if fs.stat inp.Path = false then
      (fs, ToolOutcome.err ("directory does not exist: " ++ inp.Path))
    else
      ({ files := fs.files.filter
           (fun e => e.1 ≠ inp.Path ∧ underDir inp.Path e.1 = false),
         dirs := fs.dirs.filter
           (fun d => d ≠ inp.Path ∧ underDir inp.Path d = false) },
       ToolOutcome.ok ("Successfully deleted directory " ++ inp.Path))

/-- `RenameFolder`: validate, require the source to exist, create the
destination's parent directory, rename. -/
def RenameFolder (input : Except String RenameFolderInput) (fs : FS) : FS × ToolOutcome :=
  match input with
  | Except.error e => (fs, ToolOutcome.err e)
  | Except.ok inp =>
    if inp.OldPath = "" || inp.NewPath = "" then
      (fs, ToolOutcome.err "both old_path and new_path must be provided")
    else if fs.stat inp.OldPath = false then
      (fs, ToolOutcome.err ("source directory does not exist: " ++ inp.OldPath))
    else
      let parentDir := goDir inp.NewPath
      let fs1 := if parentDir ≠ "." then fs.mkdirAll parentDir else fs
      (fs1.rename inp.OldPath inp.NewPath,
       ToolOutcome.ok ("Successfully renamed directory " ++ inp.OldPath ++
         " to " ++ inp.NewPath))

/-! ## `TerminalRun`

Process execution is external: it is modelled as an oracle mapping a
command and an effective timeout (in seconds) to the observed outcome of
`cmd.CombinedOutput()` — the combined output, the exit code reported by
`cmd.ProcessState.ExitCode()` (`-1` on launch failure, timeout kill, or
signal death), and the optional error value.  Real-time bounds on the
timeout are outside the embedding. -/

structure ExecOutcome where
  output : String
  exitCode : Int
  errMsg : Option String
deriving DecidableEq

/-- `TerminalRun`: validate the command, apply the 30-second default
timeout, run the command through the shell, and always return a result
string carrying the command, exit code, and combined output (plus the
error text when the execution returned one).  The list records the
process launches performed.  Note the handler returns `nil` as its error
for every executed command — launch failures and timeouts are embedded in
the result string. -/
def TerminalRun (input : Except String TerminalRunInput)
    (exec : String → Int → ExecOutcome) : List (String × Int) × ToolOutcome :=
  match input with
  | Except.error e => ([], ToolOutcome.err e)
  | Except.ok inp =>
    if inp.Command = "" then ([], ToolOutcome.err "command cannot be empty")
    else
      let timeout : Int := if inp.Timeout > 0 then inp.Timeout else 30
      let o := exec inp.Command timeout
      let base := "Command: " ++ inp.Command ++ "\n" ++
        "Exit Code: " ++ toString o.exitCode ++ "\n" ++
        "Output:\n" ++ o.output
      let result := match o.errMsg with
        | some e => base ++ "\nError: " ++ e
        | none => base
      ([(inp.Command, timeout)], ToolOutcome.ok result)

/-! ## `ListFiles` and `filepath.Walk`

`filepath.Walk` traverses a directory tree, visiting each directory's
entries in lexically sorted name order and recursing into
subdirectories.  The tree visible to the process is modelled as an
inductive node: a file with content, or a directory with named
entries. -/

inductive FNode where
  | file (content : String)
  | dir (entries : List (String × FNode))

/-- Byte-wise lexicographic order on names, as used by `sort.Strings`
inside `filepath.Walk`'s directory reading. -/
def lexLe : List Char → List Char → Bool
  | [], _ => true
  | _ :: _, [] => false
  | a :: as, b :: bs =>
    if a.toNat < b.toNat then true
    else if b.toNat < a.toNat then false
    else lexLe as bs

/-- Insertion into a name-sorted list of named blocks. -/
def insertBlock (x : String × List String) :
    List (String × List String) → List (String × List String)
  | [] => [x]
  | y :: ys => if lexLe x.1.data y.1.data then x :: y :: ys
               else y :: insertBlock x ys

/-- Sort named blocks by name. -/
def sortBlocks (l : List (String × List String)) : List (String × List String) :=
  l.foldr insertBlock []

mutual

/-- The relative paths contributed by one named entry, in visit order:
a file contributes its name; a directory contributes its name suffixed
`"/"` followed by its own sorted listing, each path prefixed by the
directory name. -/
def nodeBlock (nm : String) : FNode → List String
  | FNode.file _ => [nm]
  | FNode.dir es =>
    (nm ++ "/") :: ((sortBlocks (entryBlocks es)).flatMap
      (fun b => b.2.map (fun s => nm ++ "/" ++ s)))

/-- The named blocks of a directory's entries (in stored order; sorting
happens at the use site). -/
def entryBlocks : List (String × FNode) → List (String × List String)
  | [] => []
  | (nm, nd) :: rest => (nm, nodeBlock nm nd) :: entryBlocks rest

end

/-- The relative paths produced by `filepath.Walk` from a directory with
entries `es` (the root itself yields `"."` which `ListFiles` skips). -/
def dirListing (es : List (String × FNode)) : List String :=
  (sortBlocks (entryBlocks es)).flatMap (fun b => b.2)

/-- Resolve a sequence of path components in the tree. -/
def resolve : FNode → List String → Option FNode
  | n, [] => some n
  | FNode.file _, _ :: _ => none
  | FNode.dir es, s :: rest =>
    match es.lookup s with
    | some nd => resolve nd rest
    | none => none

/-- Minimal `encoding/json` string escaping (quote, backslash and the
common control characters; other control characters and the HTML escapes
are not exercised by any claim). -/
def jsonEscapeChar (c : Char) : List Char :=
  if c = '"' then ['\\', '"']
  else if c = '\\' then ['\\', '\\']
  else if c = '\n' then ['\\', 'n']
  else if c = '\t' then ['\\', 't']
  else if c = '\r' then ['\\', 'r']
  else [c]

/-- `json.Marshal` of the collected `[]string`; a nil slice (no paths
collected) marshals to `null`. -/
def jsonMarshalStrings (l : List String) : String :=
  match l with
  | [] => "null"
  | _ => "[" ++ String.intercalate ","
      (l.map (fun s => "\"" ++ String.mk (s.data.flatMap jsonEscapeChar) ++ "\"")) ++ "]"

/-- Path components of the `list_files` directory argument. -/
def pathComponents (p : String) : List String :=
  ((splitSlash p.data).map String.mk).filter (fun s => s ≠ "" && s ≠ ".")

/-- `ListFiles`: decode failures `panic`; the path defaults to `"."`;
the resolved directory is walked and every visited path except the root
is collected relative to the walked root, directories suffixed `"/"`;
the collected list is returned JSON-marshalled.  `root` is the tree at
the process working directory. -/
def ListFiles (input : Except String ListFilesInput) (root : FNode) : ToolOutcome :=
  match input with
  | Except.error e => ToolOutcome.panic e
  | Except.ok inp =>
    let dir := if inp.Path = "" then "." else inp.Path
    match resolve root (pathComponents dir) with
    | none => ToolOutcome.err ("lstat " ++ dir ++ ": no such file or directory")
    | some (FNode.file _) => ToolOutcome.ok (jsonMarshalStrings [])
    | some (FNode.dir es) => ToolOutcome.ok (jsonMarshalStrings (dirListing es))

/-- Specification-side formulation of empty-pattern replacement (for the
implicit `edit_file` empty-`old_str` claim): the replacement text before,
between, and after every character of the original content — that is,
`new` copied `c.length + 1` times, interleaved with the characters of
`c`. -/
def emptyPatSpec (new c : String) : String :=
  String.mk (new.data ++ (c.data.map (fun ch => ch :: new.data)).flatten)

/-! ## Lemmas about `strings.Replace` -/

theorem replaceEmptyPat_eq_spec (new : List Char) (l : List Char) :
    replaceEmptyPat new l = new ++ (l.map (fun ch => ch :: new)).flatten := by
  induction l with
  | nil => simp [replaceEmptyPat]
  | cons c rest ih => simp [replaceEmptyPat, ih]

theorem replaceEmptyPat_length (new : List Char) (l : List Char) :
    (replaceEmptyPat new l).length = l.length + (l.length + 1) * new.length := by
  induction l with
  | nil => simp [replaceEmptyPat]
  | cons c rest ih =>
    simp only [replaceEmptyPat, List.length_append, List.length_cons, ih]
    ring

theorem goReplaceNE_of_not_occurs (old new : List Char) (l : List Char)
    (h : occursL old l = false) : goReplaceNE old new l = l := by
  induction l with
  | nil => simp [goReplaceNE]
  | cons c rest ih =>
    simp only [occursL, Bool.or_eq_false_iff] at h
    rw [goReplaceNE, if_neg (by simp [h.1]), ih h.2]

theorem replCount_pos (old : List Char) (l : List Char)
    (hne : old ≠ []) (h : occursL old l = true) : 1 ≤ replCount old l := by
  induction l with
  | nil =>
    simp only [occursL, List.isEmpty_iff] at h
    exact absurd h hne
  | cons c rest ih =>
    rw [replCount]
    by_cases hp : old.isPrefixOf (c :: rest) = true
    · simp [hp]
    · simp only [occursL, Bool.or_eq_true] at h
      rcases h with h | h
      · exact absurd h hp
      · simpa [hp] using ih h

theorem goReplaceNE_length (old new : List Char) (l : List Char) (hne : old ≠ []) :
    (goReplaceNE old new l).length + replCount old l * old.length =
      l.length + replCount old l * new.length := by
  induction l using goReplaceNE.induct old new with
  | case1 => simp [goReplaceNE, replCount]
  | case2 c rest hp ih =>
    have hpre : old <+: (c :: rest) := List.isPrefixOf_iff_prefix.mp hp
    have hlen : old.length ≤ rest.length + 1 := by
      simpa using hpre.length_le
    have holdpos : 1 ≤ old.length := by
      cases old with
      | nil => exact absurd rfl hne
      | cons a as => simp
    rw [goReplaceNE, if_pos hp, replCount, if_pos hp]
    have hdrop : (rest.drop (old.length - 1)).length = rest.length - (old.length - 1) := by
      simp
    simp only [List.length_append, List.length_cons]
    have := ih
    -- (new ++ R).length + (m+1)*|old| = (rest.length+1) + (m+1)*|new|
    -- from ih : R.length + m*|old| = (rest.length - (|old|-1)) + m*|new|
    rw [Nat.succ_mul, Nat.succ_mul]
    omega
  | case3 c rest hp ih =>
    rw [goReplaceNE, if_neg hp, replCount, if_neg hp]
    simp only [List.length_cons]
    omega

theorem goReplaceNE_ne_of_length_eq (old new : List Char) (l : List Char)
    (hlen : old.length = new.length) (hne : old ≠ new)
    (h : occursL old l = true) : goReplaceNE old new l ≠ l := by
  induction l with
  | nil =>
    intro _
    simp only [occursL, List.isEmpty_iff] at h
    subst h
    simp only [List.length_nil] at hlen
    exact hne (List.length_eq_zero.mp hlen.symm).symm
  | cons c rest ih =>
    by_cases hp : old.isPrefixOf (c :: rest) = true
    · rw [goReplaceNE, if_pos hp]
      have hpre : old <+: (c :: rest) := List.isPrefixOf_iff_prefix.mp hp
      obtain ⟨t, ht⟩ := hpre
      intro heq
      rw [← ht] at heq
      have := (List.append_inj heq (hlen.symm)).1
      exact hne this.symm
    · rw [goReplaceNE, if_neg hp]
      simp only [occursL, Bool.or_eq_true] at h
      rcases h with h | h
      · exact absurd h hp
      · intro heq
        exact ih h (by simpa using heq)

theorem goReplaceNE_ne (old new : List Char) (l : List Char)
    (hne : old ≠ []) (hne2 : old ≠ new) (h : occursL old l = true) :
    goReplaceNE old new l ≠ l := by
  intro heq
  by_cases hlen : old.length = new.length
  · exact goReplaceNE_ne_of_length_eq old new l hlen hne2 h heq
  · have hcnt := replCount_pos old l hne h
    have hlen2 := goReplaceNE_length old new l hne
    rw [heq] at hlen2
    have h3 := Nat.add_left_cancel hlen2
    exact hlen (Nat.eq_of_mul_eq_mul_left (by omega) h3)

theorem occursL_nil_pattern (l : List Char) : occursL [] l = true := by
  cases l with
  | nil => simp [occursL, List.isEmpty]
  | cons c rest => simp [occursL, List.isPrefixOf]

/-- String-level: a non-occurring non-empty pattern leaves the content
unchanged. -/
theorem goReplace_of_not_occurs (s old new : String)
    (hne : old ≠ "") (h : occursIn old s = false) : goReplace s old new = s := by
  have hd : old.data ≠ [] := by
    intro hd
    exact hne (String.ext (by simpa using hd))
  rw [goReplace, if_neg hd, goReplaceNE_of_not_occurs _ _ _ h]

/-- String-level: an occurring pattern different from its replacement
changes the content. -/
theorem goReplace_changes (s old new : String)
    (hne : old ≠ "") (hne2 : old ≠ new) (h : occursIn old s = true) :
    goReplace s old new ≠ s := by
  have hd : old.data ≠ [] := by
    intro hd
    exact hne (String.ext (by simpa using hd))
  rw [goReplace, if_neg hd]
  intro heq
  have : goReplaceNE old.data new.data s.data = s.data := by
    have := String.ext_iff.mp heq
    simpa using this
  exact goReplaceNE_ne old.data new.data s.data hd
    (fun hdd => hne2 (String.ext hdd)) h this

/-- The empty pattern produces the interleaved content. -/
theorem goReplace_empty_pattern (s new : String) :
    goReplace s "" new = emptyPatSpec new s := by
  rw [goReplace, if_pos rfl, emptyPatSpec, replaceEmptyPat_eq_spec]

/-! ## Lemmas about the dispatch loop -/

theorem runV1_nil (tools : List ToolDef) (inputs : List String) (flag : Bool)
    (conv : List ChatMessage) : runV1 tools inputs [] flag conv = (conv, []) := by
  cases flag <;> rfl

theorem runV1_false (tools : List ToolDef) (inputs : List String)
    (r : Except String ChatMessage) (rest : List (Except String ChatMessage))
    (conv : List ChatMessage) :
    runV1 tools inputs (r :: rest) false conv =
      ((runV1 tools inputs rest (stepResp tools r conv).2 (stepResp tools r conv).1).1,
       Ev.call r ::
         (runV1 tools inputs rest (stepResp tools r conv).2 (stepResp tools r conv).1).2) :=
  rfl

theorem runV1_true_nil (tools : List ToolDef) (r : Except String ChatMessage)
    (rest : List (Except String ChatMessage)) (conv : List ChatMessage) :
    runV1 tools [] (r :: rest) true conv = (conv, []) :=
  rfl

theorem runV1_true_cons (tools : List ToolDef) (u : String) (us : List String)
    (r : Except String ChatMessage) (rest : List (Except String ChatMessage))
    (conv : List ChatMessage) :
    runV1 tools (u :: us) (r :: rest) true conv =
      ((runV1 tools us rest (stepResp tools r (conv ++ [userMsg u])).2
          (stepResp tools r (conv ++ [userMsg u])).1).1,
       Ev.input u :: Ev.call r ::
         (runV1 tools us rest (stepResp tools r (conv ++ [userMsg u])).2
           (stepResp tools r (conv ++ [userMsg u])).1).2) :=
  rfl

theorem stepResp_flag (tools : List ToolDef) (r : Except String ChatMessage)
    (conv : List ChatMessage) : (stepResp tools r conv).2 = respEndsRound r := by
  cases r with
  | error e => rfl
  | ok am =>
    cases hEmp : am.toolCalls.isEmpty <;> simp [stepResp, respEndsRound, hEmp]

theorem convBlocks_stepResp (tools : List ToolDef) (r : Except String ChatMessage)
    (conv : List ChatMessage) (h : ConvBlocks tools conv) :
    ConvBlocks tools (stepResp tools r conv).1 := by
  cases r with
  | error e => exact h
  | ok am =>
    cases hEmp : am.toolCalls.isEmpty with
    | true => simpa [stepResp, hEmp] using ConvBlocks.text conv am hEmp h
    | false => simpa [stepResp, hEmp] using ConvBlocks.withTools conv am hEmp h

theorem convBlocks_runV1 (tools : List ToolDef) (inputs : List String)
    (responses : List (Except String ChatMessage)) (flag : Bool)
    (conv : List ChatMessage) (h : ConvBlocks tools conv) :
    ConvBlocks tools (runV1 tools inputs responses flag conv).1 := by
  induction responses generalizing inputs flag conv with
  | nil => simpa [runV1_nil] using h
  | cons r rest ih =>
    cases flag with
    | false =>
      rw [runV1_false]
      exact ih inputs _ _ (convBlocks_stepResp tools r conv h)
    | true =>
      cases inputs with
      | nil => simpa [runV1_true_nil] using h
      | cons u us =>
        rw [runV1_true_cons]
        exact ih us _ _ (convBlocks_stepResp tools r _ (ConvBlocks.user conv u h))

theorem adjOK_cons (p : Ev → Ev → Bool) (a : Ev) (l : List Ev) :
    adjOK p (a :: l) = (headSat (p a) l && adjOK p l) := by
  cases l <;> simp [adjOK, headSat]

/-- The completion-call event followed by the head of the rest of the
trace satisfies `toolPair`, provided a round that is not over is followed
by a completion call. -/
theorem headSat_toolPair (r : Except String ChatMessage) (T : List Ev)
    (h : respEndsRound r = false → headSat isCall T = true) :
    headSat (toolPair (Ev.call r)) T = true := by
  cases T with
  | nil => rfl
  | cons b T2 =>
    rcases r with e | am
    · rfl
    · cases hEmp : am.toolCalls.isEmpty with
      | true => simp [headSat, toolPair, hEmp]
      | false =>
        have hc := h (by simp [respEndsRound, hEmp])
        simp only [headSat] at hc ⊢
        simp [toolPair, hEmp, hc]

theorem headSat_roundPair (r : Except String ChatMessage) (T : List Ev)
    (h : respEndsRound r = false → headSat isCall T = true) :
    headSat (roundPair (Ev.call r)) T = true := by
  cases T with
  | nil => rfl
  | cons b T2 =>
    cases b with
    | call r2 => cases r <;> rfl
    | input u =>
      cases hEnd : respEndsRound r with
      | true => simp [headSat, roundPair, hEnd]
      | false =>
        have hc := h hEnd
        simp [headSat, isCall] at hc

/-- The control-flow trace invariant of `main.go`'s loop: after an
assistant turn with tool calls the next event is a completion call, and
user input is read only after a plain-text assistant turn or a failed
completion call; moreover the trace's first event agrees with the
`readUserInput` flag. -/
theorem trace_inv (tools : List ToolDef) (inputs : List String)
    (responses : List (Except String ChatMessage)) (flag : Bool)
    (conv : List ChatMessage) :
    toolsThenCall (runV1 tools inputs responses flag conv).2 = true ∧
    inputOnlyAfterRoundEnd (runV1 tools inputs responses flag conv).2 = true ∧
    (flag = false → headSat isCall (runV1 tools inputs responses flag conv).2 = true) ∧
    (flag = true → headSat isInput (runV1 tools inputs responses flag conv).2 = true) := by
  induction responses generalizing inputs flag conv with
  | nil =>
    refine ⟨?_, ?_, ?_, ?_⟩ <;>
      simp [runV1_nil, toolsThenCall, inputOnlyAfterRoundEnd, adjOK, headSat]
  | cons r rest ih =>
    cases flag with
    | false =>
      obtain ⟨ih1, ih2, ih3, ih4⟩ :=
        ih inputs (stepResp tools r conv).2 (stepResp tools r conv).1
      have ih3h : respEndsRound r = false →
          headSat isCall (runV1 tools inputs rest (stepResp tools r conv).2
            (stepResp tools r conv).1).2 = true :=
        fun hf => ih3 (by rw [stepResp_flag]; exact hf)
      rw [runV1_false]
      refine ⟨?_, ?_, fun _ => rfl, fun hcontra => by simp at hcontra⟩
      · simp only [toolsThenCall, adjOK_cons, Bool.and_eq_true]
        refine ⟨headSat_toolPair r _ ih3h, ?_⟩
        simpa [toolsThenCall] using ih1
      · simp only [inputOnlyAfterRoundEnd, adjOK_cons, Bool.and_eq_true]
        refine ⟨headSat_roundPair r _ ih3h, ?_⟩
        simpa [inputOnlyAfterRoundEnd] using ih2
    | true =>
      cases inputs with
      | nil =>
        refine ⟨?_, ?_, fun hcontra => by simp at hcontra, fun _ => rfl⟩ <;>
          simp [runV1_true_nil, toolsThenCall, inputOnlyAfterRoundEnd, adjOK]
      | cons u us =>
        obtain ⟨ih1, ih2, ih3, ih4⟩ :=
          ih us (stepResp tools r (conv ++ [userMsg u])).2
            (stepResp tools r (conv ++ [userMsg u])).1
        have ih3h : respEndsRound r = false →
            headSat isCall (runV1 tools us rest
              (stepResp tools r (conv ++ [userMsg u])).2
              (stepResp tools r (conv ++ [userMsg u])).1).2 = true :=
          fun hf => ih3 (by rw [stepResp_flag]; exact hf)
        rw [runV1_true_cons]
        refine ⟨?_, ?_, fun hcontra => by simp at hcontra, fun _ => rfl⟩
        · simp only [toolsThenCall, adjOK_cons, Bool.and_eq_true]
          refine ⟨by cases r <;> rfl, headSat_toolPair r _ ih3h, ?_⟩
          simpa [toolsThenCall] using ih1
        · simp only [inputOnlyAfterRoundEnd, adjOK_cons, Bool.and_eq_true]
          refine ⟨by cases r <;> rfl, headSat_roundPair r _ ih3h, ?_⟩
          simpa [inputOnlyAfterRoundEnd] using ih2

/-! ## Lemmas relating the two program versions -/

theorem runV2_nil (tools : List ToolDef) (inputs : List String) (flag : Bool)
    (conv : List ChatMessage) :
    runV2 tools inputs [] flag conv = (Except.ok conv, []) := by
  cases flag <;> rfl

theorem runV2_false_err (tools : List ToolDef) (inputs : List String) (e : String)
    (rest : List (Except String ChatMessage)) (conv : List ChatMessage) :
    runV2 tools inputs (Except.error e :: rest) false conv =
      (Except.error e, [Ev.call (Except.error e)]) :=
  rfl

theorem runV2_false_ok (tools : List ToolDef) (inputs : List String) (am : ChatMessage)
    (rest : List (Except String ChatMessage)) (conv : List ChatMessage) :
    runV2 tools inputs (Except.ok am :: rest) false conv =
      ((runV2 tools inputs rest (stepResp tools (Except.ok am) conv).2
          (stepResp tools (Except.ok am) conv).1).1,
       Ev.call (Except.ok am) ::
         (runV2 tools inputs rest (stepResp tools (Except.ok am) conv).2
           (stepResp tools (Except.ok am) conv).1).2) :=
  rfl

theorem runV2_true_nil (tools : List ToolDef) (r : Except String ChatMessage)
    (rest : List (Except String ChatMessage)) (conv : List ChatMessage) :
    runV2 tools [] (r :: rest) true conv = (Except.ok conv, []) :=
  rfl

theorem runV2_true_err (tools : List ToolDef) (u : String) (us : List String) (e : String)
    (rest : List (Except String ChatMessage)) (conv : List ChatMessage) :
    runV2 tools (u :: us) (Except.error e :: rest) true conv =
      (Except.error e, [Ev.input u, Ev.call (Except.error e)]) :=
  rfl

theorem runV2_true_ok (tools : List ToolDef) (u : String) (us : List String)
    (am : ChatMessage) (rest : List (Except String ChatMessage))
    (conv : List ChatMessage) :
    runV2 tools (u :: us) (Except.ok am :: rest) true conv =
      ((runV2 tools us rest (stepResp tools (Except.ok am) (conv ++ [userMsg u])).2
          (stepResp tools (Except.ok am) (conv ++ [userMsg u])).1).1,
       Ev.input u :: Ev.call (Except.ok am) ::
         (runV2 tools us rest (stepResp tools (Except.ok am) (conv ++ [userMsg u])).2
           (stepResp tools (Except.ok am) (conv ++ [userMsg u])).1).2) :=
  rfl

theorem find?_name_append (ts : List ToolDef) (cw : ToolDef) (name : String)
    (h : cw.name ≠ name) :
    (ts ++ [cw]).find? (fun t => t.name == name) =
      ts.find? (fun t => t.name == name) := by
  induction ts with
  | nil =>
    simp only [List.nil_append, List.find?]
    rw [show (cw.name == name) = false from beq_eq_false_iff_ne.mpr h]
  | cons t ts ih =>
    simp only [List.cons_append, List.find?]
    cases hdec : (t.name == name) <;> simp [hdec, ih]

/-- A lookup for a name that is not the appended tool's is unaffected by
appending that tool at the end of the registry. -/
theorem executeTool_append (ts : List ToolDef) (cw : ToolDef) (id name input : String)
    (h : name ≠ cw.name) :
    executeTool (ts ++ [cw]) id name input = executeTool ts id name input := by
  unfold executeTool
  rw [find?_name_append ts cw name (fun he => h he.symm)]

theorem toolResultsFor_append (ts : List ToolDef) (cw : ToolDef) (tcs : List ToolCall)
    (h : ∀ tc ∈ tcs, tc.name ≠ cw.name) :
    toolResultsFor (ts ++ [cw]) tcs = toolResultsFor ts tcs := by
  induction tcs with
  | nil => rfl
  | cons tc tcs ih =>
    simp only [toolResultsFor, List.map_cons]
    rw [executeTool_append ts cw tc.id tc.name tc.args (h tc (by simp))]
    have := ih (fun x hx => h x (by simp [hx]))
    simpa [toolResultsFor] using this

theorem stepResp_append (ts : List ToolDef) (cw : ToolDef) (am : ChatMessage)
    (conv : List ChatMessage) (h : ∀ tc ∈ am.toolCalls, tc.name ≠ cw.name) :
    stepResp (ts ++ [cw]) (Except.ok am) conv = stepResp ts (Except.ok am) conv := by
  cases hEmp : am.toolCalls.isEmpty with
  | true => simp [stepResp, hEmp]
  | false => simp [stepResp, hEmp, toolResultsFor_append ts cw am.toolCalls h]

/-- On oracle runs where every completion call succeeds and no assistant
turn requests the extra tool, the earlier variant's loop computes the
same conversation and trace as `main.go`'s loop run with the extra tool
appended to its registry. -/
theorem runV2_refines_runV1 (ts : List ToolDef) (cw : ToolDef) (inputs : List String)
    (responses : List (Except String ChatMessage)) (flag : Bool)
    (conv : List ChatMessage)
    (hok : ∀ r ∈ responses, ∃ am, r = Except.ok am)
    (hnames : ∀ am, Except.ok am ∈ responses → ∀ tc ∈ am.toolCalls, tc.name ≠ cw.name) :
    runV2 ts inputs responses flag conv =
      (Except.ok (runV1 (ts ++ [cw]) inputs responses flag conv).1,
       (runV1 (ts ++ [cw]) inputs responses flag conv).2) := by
  induction responses generalizing inputs flag conv with
  | nil => cases flag <;> rfl
  | cons r rest ih =>
    obtain ⟨am, ham⟩ := hok r (by simp)
    subst ham
    have hname : ∀ tc ∈ am.toolCalls, tc.name ≠ cw.name :=
      hnames am (by simp)
    have hok2 : ∀ r ∈ rest, ∃ am2, r = Except.ok am2 :=
      fun r hr => hok r (by simp [hr])
    have hnames2 : ∀ am2, Except.ok am2 ∈ rest → ∀ tc ∈ am2.toolCalls, tc.name ≠ cw.name :=
      fun am2 hm => hnames am2 (by simp [hm])
    cases flag with
    | false =>
      rw [runV2_false_ok, runV1_false, stepResp_append ts cw am conv hname]
      rw [ih inputs _ _ hok2 hnames2]
    | true =>
      cases inputs with
      | nil => rfl
      | cons u us =>
        rw [runV2_true_ok, runV1_true_cons,
          stepResp_append ts cw am (conv ++ [userMsg u]) hname]
        rw [ih us _ _ hok2 hnames2]

/-! ## Lemmas about the filesystem model -/

theorem FS.readFile_writeFile_self (fs : FS) (p c : String) :
    (fs.writeFile p c).readFile p = some c := by
  simp [FS.readFile, FS.writeFile, List.lookup]

theorem FS.mkdirAll_contains (fs : FS) (d : String) :
    (fs.mkdirAll d).dirs.contains d = true := by
  simp only [FS.mkdirAll]
  split
  · assumption
  · simp

/-! ## The claims -/

/-- C2: a tool-call request whose name matches no registered tool yields
exactly `"tool not found"`, for every possible assignment of handler
functions (hence no handler is invoked); and lookup is first-match-wins
by exact name over the ordered list: when no earlier tool shares the
name, the named tool's handler provides the result. -/
theorem executeTool_lookup (tools pre post : List ToolDef) (t : ToolDef)
    (id name input : String)
    (habsent : ∀ u ∈ tools, u.name ≠ name)
    (hpre : ∀ u ∈ pre, u.name ≠ t.name) :
    executeTool tools id name input = "tool not found" ∧
    executeTool (pre ++ t :: post) id t.name input =
      (match t.fn input with
       | Except.ok r => r
       | Except.error e => e) := by
  constructor
  · unfold executeTool
    have : tools.find? (fun u => u.name == name) = none := by
      rw [List.find?_eq_none]
      intro u hu
      simp [habsent u hu]
    rw [this]
  · unfold executeTool
    have : (pre ++ t :: post).find? (fun u => u.name == t.name) = some t := by
      induction pre with
      | nil => simp [List.find?]
      | cons q qre ih =>
        simp only [List.cons_append, List.find?]
        rw [show (q.name == t.name) = false from
          beq_eq_false_iff_ne.mpr (hpre q (by simp))]
        exact ih (fun u hu => hpre u (by simp [hu]))
    rw [this]

/-- C2 witness. -/
theorem executeTool_lookup_w :
    executeTool [] "c1" "missing_tool" "x" = "tool not found" ∧
    executeTool [⟨"read_file", fun _ => Except.ok "ra"⟩,
      ⟨"edit_file", fun _ => Except.ok "OK"⟩] "c1" "edit_file" "x" = "OK" := by
  constructor
  · exact (executeTool_lookup [] [] [] ⟨"z", fun _ => Except.ok ""⟩ "c1" "missing_tool" "x"
      (by intro u hu; simp at hu) (by intro u hu; simp at hu)).1
  · exact (executeTool_lookup [] [⟨"read_file", fun _ => Except.ok "ra"⟩] []
      ⟨"edit_file", fun _ => Except.ok "OK"⟩ "c1" "missing_tool" "x"
      (by intro u hu; simp at hu)
      (by intro u hu; rw [List.mem_singleton] at hu; subst hu; decide)).2

/-- C3: on a file with content `"A"`, `edit_file(old_str="A",
new_str="B")` succeeds with `"OK"` and leaves content `"B"`; repeating
the identical call fails with `"old_str not found in file"` and leaves
the state unchanged. -/
theorem edit_file_roundtrip (fs : FS) (p : String) (hp : p ≠ "")
    (h : fs.readFile p = some "A") :
    (EditFile (Except.ok ⟨p, "A", "B"⟩) fs).2 = ToolOutcome.ok "OK" ∧
    ((EditFile (Except.ok ⟨p, "A", "B"⟩) fs).1).readFile p = some "B" ∧
    EditFile (Except.ok ⟨p, "A", "B"⟩) (EditFile (Except.ok ⟨p, "A", "B"⟩) fs).1 =
      ((EditFile (Except.ok ⟨p, "A", "B"⟩) fs).1,
       ToolOutcome.err "old_str not found in file") := by
  have hg1 : goReplace "A" "A" "B" = "B" := by
    simp [goReplace, goReplaceNE, List.isPrefixOf]
  have hg2 : goReplace "B" "A" "B" = "B" := by
    simp [goReplace, goReplaceNE, List.isPrefixOf]
  have h1 : EditFile (Except.ok ⟨p, "A", "B"⟩) fs =
      (fs.writeFile p "B", ToolOutcome.ok "OK") := by
    simp [EditFile, hp, h, hg1]
  refine ⟨by rw [h1], ?_, ?_⟩
  · rw [h1]
    exact FS.readFile_writeFile_self fs p "B"
  · rw [h1]
    simp [EditFile, hp, FS.readFile_writeFile_self, hg2]

/-- C3 witness. -/
theorem edit_file_roundtrip_w :
    (EditFile (Except.ok ⟨"f.txt", "A", "B"⟩) ⟨[("f.txt", "A")], []⟩).2 =
      ToolOutcome.ok "OK" ∧
    ((EditFile (Except.ok ⟨"f.txt", "A", "B"⟩) ⟨[("f.txt", "A")], []⟩).1).readFile
      "f.txt" = some "B" :=
  ⟨(edit_file_roundtrip ⟨[("f.txt", "A")], []⟩ "f.txt" (by decide) (by rfl)).1,
   (edit_file_roundtrip ⟨[("f.txt", "A")], []⟩ "f.txt" (by decide) (by rfl)).2.1⟩

/-- C4: `edit_file` (i) replaces all occurrences of a present `old_str`
(leftmost, non-overlapping, per `strings.Replace` with count `-1`) and
reports `"OK"`; (ii) with empty `old_str` and an absent file, creates the
file with `new_str` as content, creating the parent directory; (iii)
errors with `"old_str not found in file"` when a non-empty `old_str` does
not occur, leaving the state unchanged; (iv) errors on
`old_str = new_str`, leaving the state unchanged. -/
theorem edit_file_spec (fs : FS) (p old new c : String) :
    (p ≠ "" → old ≠ new → fs.readFile p = some c → occursIn old c = true →
      EditFile (Except.ok ⟨p, old, new⟩) fs =
        (fs.writeFile p (goReplace c old new), ToolOutcome.ok "OK")) ∧
    (p ≠ "" → new ≠ "" → fs.readFile p = none →
      (EditFile (Except.ok ⟨p, "", new⟩) fs).2 =
        ToolOutcome.ok ("Successfully created file " ++ p) ∧
      ((EditFile (Except.ok ⟨p, "", new⟩) fs).1).readFile p = some new ∧
      (goDir p ≠ "." →
        ((EditFile (Except.ok ⟨p, "", new⟩) fs).1).dirs.contains (goDir p) = true)) ∧
    (p ≠ "" → old ≠ "" → old ≠ new → fs.readFile p = some c → occursIn old c = false →
      EditFile (Except.ok ⟨p, old, new⟩) fs =
        (fs, ToolOutcome.err "old_str not found in file")) ∧
    EditFile (Except.ok ⟨p, old, old⟩) fs =
      (fs, ToolOutcome.err "invalid input parameters") := by
  refine ⟨?_, ?_, ?_, ?_⟩
  · intro hp hne h hocc
    have hguard : ¬(c = goReplace c old new ∧ old ≠ "") := by
      rintro ⟨heq, hons⟩
      exact goReplace_changes c old new hons hne hocc heq.symm
    simp only [EditFile, h]
    rw [if_neg (by simp [hp, hne])]
    simp only [decide_not]
    rw [if_neg (by simpa [-not_and, not_and_or] using hguard)]
  · intro hp hnew h
    have hne : "" ≠ new := fun he => hnew he.symm
    have h1 : EditFile (Except.ok ⟨p, "", new⟩) fs = createNewFile p new fs := by
      simp [EditFile, hp, hne, h]
    refine ⟨?_, ?_, ?_⟩
    · rw [h1]
      rfl
    · rw [h1]
      simp only [createNewFile]
      exact FS.readFile_writeFile_self _ p new
    · intro hdir
      rw [h1]
      simp only [createNewFile, if_pos hdir]
      show (FS.writeFile _ p new).dirs.contains (goDir p) = true
      exact FS.mkdirAll_contains fs (goDir p)
  · intro hp hons hne h hnocc
    have hg : goReplace c old new = c := goReplace_of_not_occurs c old new hons hnocc
    simp [EditFile, hp, hne, h, hg, hons]
  · simp [EditFile]

/-- C4 witness. -/
theorem edit_file_spec_w :
    EditFile (Except.ok ⟨"f.txt", "a", "b"⟩) ⟨[("f.txt", "aa")], []⟩ =
      (FS.writeFile ⟨[("f.txt", "aa")], []⟩ "f.txt" (goReplace "aa" "a" "b"),
       ToolOutcome.ok "OK") ∧
    (EditFile (Except.ok ⟨"d/g.txt", "", "hi"⟩) ⟨[], []⟩).2 =
      ToolOutcome.ok ("Successfully created file " ++ "d/g.txt") ∧
    EditFile (Except.ok ⟨"f.txt", "z", "b"⟩) ⟨[("f.txt", "aa")], []⟩ =
      (⟨[("f.txt", "aa")], []⟩, ToolOutcome.err "old_str not found in file") ∧
    EditFile (Except.ok ⟨"f.txt", "q", "q"⟩) ⟨[("f.txt", "aa")], []⟩ =
      (⟨[("f.txt", "aa")], []⟩, ToolOutcome.err "invalid input parameters") := by
  refine ⟨?_, ?_, ?_, ?_⟩
  · exact (edit_file_spec ⟨[("f.txt", "aa")], []⟩ "f.txt" "a" "b" "aa").1
      (by decide) (by decide) (by rfl) (by decide)
  · exact ((edit_file_spec ⟨[], []⟩ "d/g.txt" "x" "y" "cc").2.1
      (by decide) (by decide) (by rfl)).1
  · exact (edit_file_spec ⟨[("f.txt", "aa")], []⟩ "f.txt" "z" "b" "aa").2.2.1
      (by decide) (by decide) (by decide) (by rfl) (by decide)
  · exact (edit_file_spec ⟨[("f.txt", "aa")], []⟩ "f.txt" "q" "b" "aa").2.2.2

/-- C9 (implicit): `edit_file` with empty `old_str` on an existing file
with content `c` succeeds with `"OK"` and rewrites the file to `new_str`
interleaved at every character boundary of `c` — `new_str` copied
`c.length + 1` times, before, between, and after each character. -/
theorem edit_file_empty_oldstr (fs : FS) (p c new : String)
    (hp : p ≠ "") (hnew : new ≠ "") (h : fs.readFile p = some c) :
    EditFile (Except.ok ⟨p, "", new⟩) fs =
      (fs.writeFile p (emptyPatSpec new c), ToolOutcome.ok "OK") ∧
    ((EditFile (Except.ok ⟨p, "", new⟩) fs).1).readFile p =
      some (emptyPatSpec new c) ∧
    (emptyPatSpec new c).length = c.length + (c.length + 1) * new.length := by
  have hne : "" ≠ new := fun he => hnew he.symm
  have hg : goReplace c "" new = emptyPatSpec new c := goReplace_empty_pattern c new
  have h1 : EditFile (Except.ok ⟨p, "", new⟩) fs =
      (fs.writeFile p (emptyPatSpec new c), ToolOutcome.ok "OK") := by
    simp [EditFile, hp, hne, h, hg]
  refine ⟨h1, ?_, ?_⟩
  · rw [h1]
    exact FS.readFile_writeFile_self fs p (emptyPatSpec new c)
  · have : emptyPatSpec new c = String.mk (replaceEmptyPat new.data c.data) := by
      rw [emptyPatSpec, replaceEmptyPat_eq_spec]
    rw [this]
    show (replaceEmptyPat new.data c.data).length = _
    rw [replaceEmptyPat_length]
    rfl

/-- C9 witness. -/
theorem edit_file_empty_oldstr_w :
    EditFile (Except.ok ⟨"f", "", "X"⟩) ⟨[("f", "ab")], []⟩ =
      (FS.writeFile ⟨[("f", "ab")], []⟩ "f" (emptyPatSpec "X" "ab"),
       ToolOutcome.ok "OK") ∧
    (emptyPatSpec "X" "ab").length = 5 :=
  ⟨(edit_file_empty_oldstr ⟨[("f", "ab")], []⟩ "f" "ab" "X"
      (by decide) (by decide) (by rfl)).1,
   by
    rw [(edit_file_empty_oldstr ⟨[("f", "ab")], []⟩ "f" "ab" "X"
      (by decide) (by decide) (by rfl)).2.2]
    decide⟩

/-- C5 counterexample: `ReadFile` on raw arguments that fail to decode
`panic`s — it aborts the process instead of returning the failure as an
error value, contradicting the claim that no handler aborts. -/
theorem read_file_decode_aborts :
    (ReadFile (Except.error "unexpected end of JSON input") ⟨[], []⟩).aborts = true :=
  rfl

/-- C5 (amended): on invalid input every handler fails without
performing any filesystem or process side effect; the failure is a
returned error value for every handler except `read_file` and
`list_files`, whose decode failures abort the process (`panic`).
Covers the ten handlers of the specified tool surface: decode failures
for all of them, and every decoded-record constraint violation checked
by the source. -/
theorem handlers_invalid_input (e : String) (fs : FS) (root : FNode)
    (exec : String → Int → ExecOutcome) (old new content q : String) :
    ReadFile (Except.error e) fs = ToolOutcome.panic e ∧
    ListFiles (Except.error e) root = ToolOutcome.panic e ∧
    EditFile (Except.error e) fs = (fs, ToolOutcome.err e) ∧
    CreateFile (Except.error e) fs = (fs, ToolOutcome.err e) ∧
    DeleteFile (Except.error e) fs = (fs, ToolOutcome.err e) ∧
    RenameFile (Except.error e) fs = (fs, ToolOutcome.err e) ∧
    CreateFolder (Except.error e) fs = (fs, ToolOutcome.err e) ∧
    DeleteFolder (Except.error e) fs = (fs, ToolOutcome.err e) ∧
    RenameFolder (Except.error e) fs = (fs, ToolOutcome.err e) ∧
    TerminalRun (Except.error e) exec = ([], ToolOutcome.err e) ∧
    EditFile (Except.ok ⟨"", old, new⟩) fs =
      (fs, ToolOutcome.err "invalid input parameters") ∧
    EditFile (Except.ok ⟨q, old, old⟩) fs =
      (fs, ToolOutcome.err "invalid input parameters") ∧
    CreateFile (Except.ok ⟨"", content⟩) fs =
      (fs, ToolOutcome.err "path cannot be empty") ∧
    DeleteFile (Except.ok ⟨""⟩) fs = (fs, ToolOutcome.err "path cannot be empty") ∧
    RenameFile (Except.ok ⟨"", q⟩) fs =
      (fs, ToolOutcome.err "both old_path and new_path must be provided") ∧
    RenameFile (Except.ok ⟨q, ""⟩) fs =
      (fs, ToolOutcome.err "both old_path and new_path must be provided") ∧
    CreateFolder (Except.ok ⟨""⟩) fs = (fs, ToolOutcome.err "path cannot be empty") ∧
    DeleteFolder (Except.ok ⟨""⟩) fs = (fs, ToolOutcome.err "path cannot be empty") ∧
    RenameFolder (Except.ok ⟨"", q⟩) fs =
      (fs, ToolOutcome.err "both old_path and new_path must be provided") ∧
    RenameFolder (Except.ok ⟨q, ""⟩) fs =
      (fs, ToolOutcome.err "both old_path and new_path must be provided") ∧
    TerminalRun (Except.ok ⟨"", 0⟩) exec =
      ([], ToolOutcome.err "command cannot be empty") := by
  refine ⟨rfl, rfl, rfl, rfl, rfl, rfl, rfl, rfl, rfl, rfl,
    ?_, by simp [EditFile], rfl, rfl, ?_, ?_, rfl, rfl, ?_, ?_, rfl⟩
  · simp [EditFile]
  · simp [RenameFile]
  · simp [RenameFile]
  · simp [RenameFolder]
  · simp [RenameFolder]

/-- C6 counterexample: an internal launch failure (here modelled by the
execution outcome `fork/exec` error with exit code `-1`) is NOT reported
through the handler's error channel — `TerminalRun` still returns a
success value, with the failure embedded in the result string. -/
theorem terminal_run_launch_failure_ok :
    TerminalRun (Except.ok ⟨"ls", 0⟩)
      (fun _ _ => ⟨"", -1, some "fork/exec /bin/sh: no such file or directory"⟩) =
      ([("ls", 30)],
       ToolOutcome.ok
         "Command: ls\nExit Code: -1\nOutput:\n\nError: fork/exec /bin/sh: no such file or directory") := by
  rfl

/-- C6 (amended): for every non-empty command, `terminal_run` returns a
success value — a result string carrying the command, the exit code, and
the combined output, plus the execution error text when one was observed
(non-zero exits, timeouts, and launch failures included).  The error
channel is never used for an executed command; exactly one process is
launched, with the default 30-second timeout when none was supplied. -/
theorem terminal_run_result (inp : TerminalRunInput)
    (exec : String → Int → ExecOutcome) (h : inp.Command ≠ "") :
    TerminalRun (Except.ok inp) exec =
      ([(inp.Command, if inp.Timeout > 0 then inp.Timeout else 30)],
       ToolOutcome.ok
         (match (exec inp.Command (if inp.Timeout > 0 then inp.Timeout else 30)).errMsg with
          | some e2 =>
            "Command: " ++ inp.Command ++ "\n" ++ "Exit Code: " ++
              toString (exec inp.Command
                (if inp.Timeout > 0 then inp.Timeout else 30)).exitCode ++ "\n" ++
              "Output:\n" ++
              (exec inp.Command (if inp.Timeout > 0 then inp.Timeout else 30)).output ++
              "\nError: " ++ e2
          | none =>
            "Command: " ++ inp.Command ++ "\n" ++ "Exit Code: " ++
              toString (exec inp.Command
                (if inp.Timeout > 0 then inp.Timeout else 30)).exitCode ++ "\n" ++
              "Output:\n" ++
              (exec inp.Command (if inp.Timeout > 0 then inp.Timeout else 30)).output)) ∧
    (TerminalRun (Except.ok inp) exec).2.isErr = false ∧
    (TerminalRun (Except.ok inp) exec).2.aborts = false := by
  refine ⟨?_, ?_, ?_⟩
  · simp only [TerminalRun, if_neg h]
  · simp only [TerminalRun, if_neg h]
    cases hm : (exec inp.Command (if inp.Timeout > 0 then inp.Timeout else 30)).errMsg <;>
      simp [hm, ToolOutcome.isErr]
  · simp only [TerminalRun, if_neg h]
    cases hm : (exec inp.Command (if inp.Timeout > 0 then inp.Timeout else 30)).errMsg <;>
      simp [hm, ToolOutcome.aborts]

/-- C6 witness. -/
theorem terminal_run_result_w :
    (TerminalRun (Except.ok ⟨"echo hi", 5⟩)
      (fun _ _ => ⟨"hi\n", 0, none⟩)).2.isErr = false :=
  (terminal_run_result ⟨"echo hi", 5⟩ (fun _ _ => ⟨"hi\n", 0, none⟩) (by decide)).2.1

/-- C7: renaming a file or folder whose source path does not exist fails
with an error and leaves the filesystem state exactly unchanged — in
particular nothing is created at the destination or any of its parent
directories. -/
theorem rename_missing_source (fs : FS) (oldP newP : String)
    (h : fs.stat oldP = false) :
    (RenameFile (Except.ok ⟨oldP, newP⟩) fs).1 = fs ∧
    (RenameFile (Except.ok ⟨oldP, newP⟩) fs).2.isErr = true ∧
    (RenameFolder (Except.ok ⟨oldP, newP⟩) fs).1 = fs ∧
    (RenameFolder (Except.ok ⟨oldP, newP⟩) fs).2.isErr = true := by
  by_cases h1 : oldP = ""
  · refine ⟨?_, ?_, ?_, ?_⟩ <;> simp [RenameFile, RenameFolder, h1, ToolOutcome.isErr]
  · by_cases h2 : newP = ""
    · refine ⟨?_, ?_, ?_, ?_⟩ <;>
        simp [RenameFile, RenameFolder, h1, h2, ToolOutcome.isErr]
    · refine ⟨?_, ?_, ?_, ?_⟩ <;>
        simp [RenameFile, RenameFolder, h1, h2, h, ToolOutcome.isErr]

/-- C7 witness. -/
theorem rename_missing_source_w :
    (RenameFile (Except.ok ⟨"a", "b/c"⟩) ⟨[], []⟩).1 = (⟨[], []⟩ : FS) ∧
    (RenameFolder (Except.ok ⟨"a", "b/c"⟩) ⟨[], []⟩).2.isErr = true :=
  ⟨(rename_missing_source ⟨[], []⟩ "a" "b/c" (by rfl)).1,
   (rename_missing_source ⟨[], []⟩ "a" "b/c" (by rfl)).2.2.2⟩

/-- C8: on a directory containing exactly the file `a.txt` and the empty
subdirectory `b`, `list_files` with that directory as the path argument
returns exactly `["a.txt","b/"]` (in the walk's sorted traversal order,
JSON-marshalled); the path argument defaults to `"."`; files are listed
by bare relative path and directories are listed suffixed `"/"`. -/
theorem list_files_listing (es : List (String × FNode)) (c : String)
    (h : es.lookup "d" =
      some (FNode.dir [("a.txt", FNode.file c), ("b", FNode.dir [])])) :
    ListFiles (Except.ok ⟨"d"⟩) (FNode.dir es) =
      ToolOutcome.ok "[\"a.txt\",\"b/\"]" ∧
    (∀ root : FNode, ListFiles (Except.ok ⟨""⟩) root =
      ListFiles (Except.ok ⟨"."⟩) root) ∧
    (∀ nm cc, nodeBlock nm (FNode.file cc) = [nm]) ∧
    (∀ nm es2, (nodeBlock nm (FNode.dir es2)).head? = some (nm ++ "/")) := by
  refine ⟨?_, fun root => rfl, fun nm cc => rfl, fun nm es2 => rfl⟩
  have hcomp : pathComponents "d" = ["d"] := rfl
  have hres : resolve (FNode.dir es) ["d"] =
      some (FNode.dir [("a.txt", FNode.file c), ("b", FNode.dir [])]) := by
    simp [resolve, h]
  simp only [ListFiles]
  rw [if_neg (by decide), hcomp, hres]
  rfl

/-- C8 witness. -/
theorem list_files_listing_w :
    ListFiles (Except.ok ⟨"d"⟩)
      (FNode.dir [("d", FNode.dir [("a.txt", FNode.file "A"), ("b", FNode.dir [])])]) =
      ToolOutcome.ok "[\"a.txt\",\"b/\"]" :=
  (list_files_listing
    [("d", FNode.dir [("a.txt", FNode.file "A"), ("b", FNode.dir [])])] "A" rfl).1

/-- C1 counterexample: the dispatch loop of `main.go` does NOT return to
reading user input only after an assistant turn with no tool calls — on
a failed completion call it also returns to user input.  Concretely, in
the run below the second input read is immediately preceded by a failed
completion call, not by a plain-text assistant turn. -/
theorem agent_run_input_after_error :
    inputOnlyAfterText (runV1 [] ["hi", "again"]
      [Except.error "boom",
       Except.ok
         { role := Role.assistant, content := "done", toolCalls := [], toolCallID := "" }]
      true []).2 = false :=
  rfl

/-- C1 (amended): in every run of `main.go`'s dispatch loop, each
assistant turn carrying tool calls is immediately followed in the
conversation by exactly one tool-result message per request, in request
order (the conversation has block structure `ConvBlocks`, and the results
block has one `Role.tool` message per request with `ToolCallID` equal to
the request's `id`); after such a turn the next control-flow event is
another completion call — user input is solicited only immediately after
a completion call that produced a plain-text assistant turn or failed. -/
theorem agent_run_dispatch (tools : List ToolDef) (inputs : List String)
    (responses : List (Except String ChatMessage)) (tcs : List ToolCall) (i : Nat)
    (h1 : i < tcs.length) (h2 : i < (toolResultsFor tools tcs).length) :
    ConvBlocks tools (runV1 tools inputs responses true []).1 ∧
    (toolResultsFor tools tcs).length = tcs.length ∧
    ((toolResultsFor tools tcs).get ⟨i, h2⟩).toolCallID = (tcs.get ⟨i, h1⟩).id ∧
    ((toolResultsFor tools tcs).get ⟨i, h2⟩).role = Role.tool ∧
    toolsThenCall (runV1 tools inputs responses true []).2 = true ∧
    inputOnlyAfterRoundEnd (runV1 tools inputs responses true []).2 = true := by
  obtain ⟨t1, t2, _, _⟩ := trace_inv tools inputs responses true []
  refine ⟨convBlocks_runV1 tools inputs responses true [] ConvBlocks.nil,
    by simp [toolResultsFor], ?_, ?_, t1, t2⟩
  · simp [toolResultsFor, toolMsg]
  · simp [toolResultsFor, toolMsg]

/-- C1 witness. -/
theorem agent_run_dispatch_w :
    ((toolResultsFor [] [⟨"id1", "nm", "x"⟩]).get
      ⟨0, by simp [toolResultsFor]⟩).toolCallID =
      (([⟨"id1", "nm", "x"⟩] : List ToolCall).get ⟨0, by simp⟩).id ∧
    toolsThenCall (runV1 [] [] [] true []).2 = true :=
  ⟨(agent_run_dispatch [] [] [] [⟨"id1", "nm", "x"⟩] 0 (by simp)
      (by simp [toolResultsFor])).2.2.1,
   (agent_run_dispatch [] [] [] [⟨"id1", "nm", "x"⟩] 0 (by simp)
      (by simp [toolResultsFor])).2.2.2.2.1⟩

/-- C10: with the completion client modelled as a shared response
oracle, the two versions' loops are behaviorally equivalent — same final
conversation and same event trace — on every run in which every
completion call succeeds and no assistant turn requests `create_website`
(the one tool registered only in `main.go`); and they diverge at the
first completion failure: the earlier variant's `Run` returns the error
and stops (its conversation is discarded with it), while `main.go`'s
loop keeps the conversation, prints the error, and returns to reading
user input. -/
theorem run_versions_refinement :
    (∀ (ts : List ToolDef) (cw : ToolDef) (inputs : List String)
       (responses : List (Except String ChatMessage)) (flag : Bool)
       (conv : List ChatMessage),
       cw.name = "create_website" →
       (∀ r ∈ responses, ∃ am, r = Except.ok am) →
       (∀ am, Except.ok am ∈ responses →
         ∀ tc ∈ am.toolCalls, tc.name ≠ "create_website") →
       runV2 ts inputs responses flag conv =
         (Except.ok (runV1 (ts ++ [cw]) inputs responses flag conv).1,
          (runV1 (ts ++ [cw]) inputs responses flag conv).2)) ∧
    (∀ (ts : List ToolDef) (inputs : List String) (e : String)
       (rest : List (Except String ChatMessage)) (conv : List ChatMessage),
       runV2 ts inputs (Except.error e :: rest) false conv =
         (Except.error e, [Ev.call (Except.error e)])) ∧
    (∀ (ts : List ToolDef) (u : String) (us : List String) (e : String)
       (rest : List (Except String ChatMessage)) (conv : List ChatMessage),
       runV2 ts (u :: us) (Except.error e :: rest) true conv =
         (Except.error e, [Ev.input u, Ev.call (Except.error e)])) ∧
    (∀ (ts : List ToolDef) (inputs : List String) (e : String)
       (rest : List (Except String ChatMessage)) (conv : List ChatMessage),
       runV1 ts inputs (Except.error e :: rest) false conv =
         ((runV1 ts inputs rest true conv).1,
          Ev.call (Except.error e) :: (runV1 ts inputs rest true conv).2)) ∧
    (∀ (ts : List ToolDef) (u : String) (us : List String) (e : String)
       (rest : List (Except String ChatMessage)) (conv : List ChatMessage),
       runV1 ts (u :: us) (Except.error e :: rest) true conv =
         ((runV1 ts us rest true (conv ++ [userMsg u])).1,
          Ev.input u :: Ev.call (Except.error e) ::
            (runV1 ts us rest true (conv ++ [userMsg u])).2)) := by
  refine ⟨?_, fun ts inputs e rest conv => rfl, fun ts u us e rest conv => rfl,
    fun ts inputs e rest conv => rfl, fun ts u us e rest conv => rfl⟩
  intro ts cw inputs responses flag conv hcw hok hnames
  exact runV2_refines_runV1 ts cw inputs responses flag conv hok
    (fun am hm tc htc => by rw [hcw]; exact hnames am hm tc htc)

/-- C10 witness. -/
theorem run_versions_refinement_w :
    runV2 [] ["hi"]
      [Except.ok
        { role := Role.assistant, content := "done", toolCalls := [], toolCallID := "" }]
      true [] =
      (Except.ok
        (runV1 ([] ++ [⟨"create_website", fun _ => Except.ok "site"⟩]) ["hi"]
          [Except.ok
            { role := Role.assistant, content := "done", toolCalls := [],
              toolCallID := "" }]
          true []).1,
       (runV1 ([] ++ [⟨"create_website", fun _ => Except.ok "site"⟩]) ["hi"]
         [Except.ok
           { role := Role.assistant, content := "done", toolCalls := [],
             toolCallID := "" }]
         true []).2) :=
  run_versions_refinement.1 [] ⟨"create_website", fun _ => Except.ok "site"⟩ ["hi"]
    [Except.ok
      { role := Role.assistant, content := "done", toolCalls := [], toolCallID := "" }]
    true [] rfl
    (by
      intro r hr
      rw [List.mem_singleton] at hr
      subst hr
      exact ⟨_, rfl⟩)
    (by
      intro am hm tc htc
      rw [List.mem_singleton] at hm
      have : am =
          { role := Role.assistant, content := "done", toolCalls := [],
            toolCallID := "" } := by
        cases hm
        rfl
      subst this
      simp at htc)
